import Mathlib

/-!
A shallow embedding of `src/script.js`, a canvas drawing application with
configurable brushes, an undo history of whole-canvas snapshots, fill/clear
operations and keyboard shortcuts.  Pixels are modelled point-wise: a
`Surface` maps rational coordinates to an optional colour (`none` is a
transparent, i.e. erased, pixel).  The 2D context's persistent
`globalCompositeOperation` is modelled explicitly, since the handlers read
whatever value the previous drawing operation left behind.
-/

/-- The two values `globalCompositeOperation` takes in the script:
`source-over` (normal painting) and `destination-out` (erasing). -/
inductive CompositeMode where
  | sourceOver
  | destinationOut
deriving DecidableEq, Repr

/-- A fill style: a CSS colour string (as assigned to `ctx.fillStyle`), or an
`hsl(hue, 100%, 50%)` colour computed by the rainbow brush.  Every style the
script uses is fully opaque. -/
inductive Color where
  | css (s : String)
  | hsl (hue : ℚ)
deriving DecidableEq, Repr

/-- A pixel: `none` is transparent (erased), `some c` is an opaque colour. -/
abbrev Pixel := Option Color

/-- The canvas pixel buffer, point-sampled at rational coordinates. -/
abbrev Surface := ℚ → ℚ → Pixel

/-- Porter-Duff compositing of an opaque source colour over one destination
pixel.  `source-over` with an opaque source replaces the pixel; a
`destination-out` fill with an opaque source removes the destination
(result alpha = dest × (1 − source alpha) = 0). -/
def applyComp (comp : CompositeMode) (c : Color) (_old : Pixel) : Pixel :=
  match comp with
  | .sourceOver => some c
  | .destinationOut => none

/-- Membership of a point in the axis-aligned rectangle with corner
`(x0, y0)`, width `w` and height `h` (half-open, as canvas rasterisation of
`fillRect`). -/
def inRect (x0 y0 w h p q : ℚ) : Prop :=
  x0 ≤ p ∧ p < x0 + w ∧ y0 ≤ q ∧ q < y0 + h

instance (x0 y0 w h p q : ℚ) : Decidable (inRect x0 y0 w h p q) := by
  unfold inRect; infer_instance

/-- `ctx.fillRect(x0, y0, w, h)` with fill style `c` under composite mode
`comp`. -/
def fillRect (comp : CompositeMode) (c : Color) (x0 y0 w h : ℚ)
    (s : Surface) : Surface :=
  fun p q => if inRect x0 y0 w h p q then applyComp comp c (s p q) else s p q

/-- `ctx.clearRect(x0, y0, w, h)`: unconditionally makes the rectangle
transparent, independent of the composite mode. -/
def clearRect (x0 y0 w h : ℚ) (s : Surface) : Surface :=
  fun p q => if inRect x0 y0 w h p q then none else s p q

/-- `ctx.arc(x, y, r, 0, 2π)` followed by `ctx.fill()`: fills the closed disc
of radius `r` centred at `(x, y)`, with style `c` under composite mode
`comp`.  Disc membership `dist ≤ r` is stated on squares to stay inside ℚ. -/
def fillDisc (comp : CompositeMode) (c : Color) (x y r : ℚ)
    (s : Surface) : Surface :=
  fun p q =>
    if (p - x) ^ 2 + (q - y) ^ 2 ≤ r ^ 2 then applyComp comp c (s p q)
    else s p q

/-- `ctx.drawImage(img, 0, 0)` for a canvas-sized image: composites the
image over the rectangle `[0, w) × [0, h)` under composite mode `comp`.
Where the image pixel is transparent the destination is untouched (for both
modes in use: `source-over` adds nothing, `destination-out` subtracts
nothing). -/
def drawImage (comp : CompositeMode) (w h : ℚ) (img : Surface)
    (dest : Surface) : Surface :=
  fun p q =>
    if inRect 0 0 w h p q then
      match img p q with
      | some c => applyComp comp c (dest p q)
      | none => dest p q
    else dest p q

/-- The brush kinds of the `brushType` select control. -/
inductive BrushType where
  | round
  | square
  | spray
  | rainbow
deriving DecidableEq, Repr

/-- The script's module-level mutable state: canvas dimensions, the pixel
buffer, the drawing flag, brush settings, the undo history (each entry is
the decoded content of a `canvas.toDataURL()` snapshot), the history cursor
`historyStep`, and the 2D context's persistent composite mode. -/
structure AppState where
  width : ℚ
  height : ℚ
  surface : Surface
  isDrawing : Bool
  currentColor : String
  brushSize : ℤ
  brushType : BrushType
  isEraser : Bool
  history : List Surface
  historyStep : ℤ
  composite : CompositeMode

/-- `saveState()` (src/script.js lines 28–38): increment `historyStep`; if it
is now strictly below the history length, truncate the history to that
length (`history.length = historyStep`); push a snapshot of the current
canvas; if the length now exceeds 50, shift off the oldest entry and
decrement `historyStep`. -/
def saveState (st : AppState) : AppState :=
  let step : ℤ := st.historyStep + 1
  let h1 : List Surface :=
    if step < (st.history.length : ℤ) then st.history.take step.toNat
    else st.history
  let h2 : List Surface := h1 ++ [st.surface]
  if 50 < h2.length then
    { st with history := h2.drop 1, historyStep := step - 1 }
  else
    { st with history := h2, historyStep := step }

/-- The `undoBtn` click handler (src/script.js lines 96–106): if
`historyStep > 0`, decrement it and redraw the snapshot now pointed to —
`clearRect` over the whole canvas followed by `drawImage`, the latter under
the context's current composite mode.  Otherwise nothing happens. -/
def undoClick (st : AppState) : AppState :=
  if 0 < st.historyStep then
    let step : ℤ := st.historyStep - 1
    let img : Surface := st.history.getD step.toNat (fun _ _ => none)
    { st with
        historyStep := step,
        surface := drawImage st.composite st.width st.height img
          (clearRect 0 0 st.width st.height st.surface) }
  else st

/-- The `colorPicker` input handler (src/script.js lines 55–59): store the
chosen colour and switch eraser mode off. -/
def colorPickerInput (st : AppState) (v : String) : AppState :=
  { st with currentColor := v, isEraser := false }

/-- The `brushSize` slider input handler (src/script.js lines 61–64): store
`parseInt(e.target.value)` unchanged (the handler performs no validation or
clamping). -/
def brushSizeInput (st : AppState) (v : ℤ) : AppState :=
  { st with brushSize := v }

/-- The `fillBtn` click handler (src/script.js lines 83–87): `saveState()`,
set `ctx.fillStyle = currentColor`, then `fillRect` over the whole canvas —
under whatever composite mode the context is left in. -/
def fillBtnClick (st : AppState) : AppState :=
  let st1 := saveState st
  { st1 with
      surface :=
        fillRect st1.composite (Color.css st1.currentColor) 0 0
          st1.width st1.height st1.surface }

/-- Test `√d2 ≤ r` without leaving ℚ: for a nonnegative radicand `d2`,
`Math.sqrt(d2) <= r` holds exactly when `0 ≤ r` and `d2 ≤ r ^ 2`. -/
def sqrtLe (d2 r : ℚ) : Prop := 0 ≤ r ∧ d2 ≤ r ^ 2

instance (d2 r : ℚ) : Decidable (sqrtLe d2 r) := by
  unfold sqrtLe; infer_instance

/-- `drawSpray(x, y)` (src/script.js lines 136–146): `density = brushSize*2`
loop iterations; each draws two `Math.random()` samples (values in `[0,1)`),
forms offsets `(sample − 0.5) × brushSize`, and paints a 1×1 pixel at the
offset point iff `Math.sqrt(ox² + oy²) <= brushSize/2`.  The random stream
is passed explicitly; the result is the list of painted sub-points. -/
def drawSpray (x y : ℚ) (brushSize : ℤ) (rand : ℕ → ℚ × ℚ) :
    List (ℚ × ℚ) :=
  (List.range (brushSize * 2).toNat).filterMap fun i =>
    let offsetX := ((rand i).1 - 1 / 2) * (brushSize : ℚ)
    let offsetY := ((rand i).2 - 1 / 2) * (brushSize : ℚ)
    if sqrtLe (offsetX ^ 2 + offsetY ^ 2) ((brushSize : ℚ) / 2) then
      some (x + offsetX, y + offsetY)
    else none

/-- The candidate sub-points of one spray stamp: the point sampled at each
of the `brushSize*2` loop iterations of `drawSpray`, before the distance
test. -/
def sprayCandidates (x y : ℚ) (brushSize : ℤ) (rand : ℕ → ℚ × ℚ) :
    List (ℚ × ℚ) :=
  (List.range (brushSize * 2).toNat).map fun i =>
    (x + ((rand i).1 - 1 / 2) * (brushSize : ℚ),
      y + ((rand i).2 - 1 / 2) * (brushSize : ℚ))

/-- Paint a list of 1×1 pixels: one `ctx.fillRect(px, py, 1, 1)` per
point. -/
def stampPoints (comp : CompositeMode) (c : Color) (pts : List (ℚ × ℚ))
    (s : Surface) : Surface :=
  pts.foldl (fun acc p => fillRect comp c p.1 p.2 1 1 acc) s

/-- `(Date.now() / 10) % 360` (src/script.js line 149): the rainbow hue,
with the JS `%` of a nonnegative number written via the floor. -/
def rainbowHue (t : ℚ) : ℚ := t / 10 - 360 * ⌊t / 10 / 360⌋

/-- `draw(x, y)` (src/script.js lines 154–177): set the context's composite
mode and fill style from eraser mode, then dispatch one stamp on the brush
type.  `t` is the `Date.now()` value the rainbow brush reads (it overwrites
the fill style); `rand` is the `Math.random()` stream the spray brush
reads. -/
def draw (st : AppState) (x y t : ℚ) (rand : ℕ → ℚ × ℚ) : AppState :=
  let comp :=
    if st.isEraser then CompositeMode.destinationOut
    else CompositeMode.sourceOver
  let style :=
    if st.isEraser then Color.css "rgba(0,0,0,1)"
    else Color.css st.currentColor
  let st1 := { st with composite := comp }
  match st1.brushType with
  | .round =>
    { st1 with
        surface := fillDisc comp style x y ((st1.brushSize : ℚ) / 2)
          st1.surface }
  | .square =>
    { st1 with
        surface := fillRect comp style (x - (st1.brushSize : ℚ) / 2)
          (y - (st1.brushSize : ℚ) / 2) (st1.brushSize : ℚ)
          (st1.brushSize : ℚ) st1.surface }
  | .spray =>
    { st1 with
        surface := stampPoints comp style (drawSpray x y st1.brushSize rand)
          st1.surface }
  | .rainbow =>
    { st1 with
        surface := fillDisc comp (Color.hsl (rainbowHue t)) x y
          ((st1.brushSize : ℚ) / 2) st1.surface }

/-- The `mousedown` handler (src/script.js lines 180–185): set the drawing
flag, `saveState()`, then one stamp at the event position. -/
def mousedown (st : AppState) (x y t : ℚ) (rand : ℕ → ℚ × ℚ) : AppState :=
  draw (saveState { st with isDrawing := true }) x y t rand

/-- The `mousemove` handler (src/script.js lines 187–192): one stamp at the
sampled position while the drawing flag is set, otherwise nothing. -/
def mousemove (st : AppState) (x y t : ℚ) (rand : ℕ → ℚ × ℚ) : AppState :=
  if st.isDrawing then draw st x y t rand else st

/-- The `mouseup` handler (src/script.js lines 194–196): clear the drawing
flag. -/
def mouseup (st : AppState) : AppState := { st with isDrawing := false }

/-- A fresh canvas is fully transparent until `resizeCanvas` fills it. -/
def blankSurface : Surface := fun _ _ => none

/-- An all-black surface, the content `resizeCanvas` produces. -/
def blackSurface : Surface := fun _ _ => some (Color.css "#000000")

/-- The module-level state after `resizeCanvas()` (src/script.js lines
6–15) ran on load, before the initial `saveState()` of line 41: a 1200×600
canvas filled with black, the default brush settings of lines 19–25, an
empty history. -/
def initialState : AppState :=
  { width := 1200, height := 600,
    surface := fillRect .sourceOver (Color.css "#000000") 0 0 1200 600
      blankSurface,
    isDrawing := false, currentColor := "#ffffff", brushSize := 5,
    brushType := .round, isEraser := false, history := [], historyStep := -1,
    composite := .sourceOver }

/-- The state after the script finished loading: line 41 pushes the initial
snapshot. -/
def loadedState : AppState := saveState initialState

/-- A fixed `Math.random()` stream for concrete scenarios. -/
def randHalf : ℕ → ℚ × ℚ := fun _ => (1 / 2, 1 / 2)

/-- Stroke A of the C4 scenario: pointer-down at (10, 10), one move sample
at (12, 12), pointer-up.  The default brush (round, white, size 5) is
used, so the `t` and `rand` arguments are irrelevant. -/
def strokeAState : AppState :=
  mouseup (mousemove (mousedown loadedState 10 10 0 randHalf) 12 12 0
    randHalf)

/-- One undo after stroke A. -/
def undoneState : AppState := undoClick strokeAState

/-- Stroke B of the C4 scenario: pointer-down at (20, 20) after the
undo. -/
def strokeBState : AppState := mousedown undoneState 20 20 0 randHalf

/-- C3's failing input: two stored all-black snapshots, cursor at entry 1,
and a context whose composite mode an eraser stamp left at
`destination-out`. -/
def undoAfterEraseState : AppState :=
  { width := 4, height := 4, surface := blackSurface, isDrawing := false,
    currentColor := "#ffffff", brushSize := 5, brushType := .round,
    isEraser := true, history := [blackSurface, blackSurface],
    historyStep := 1, composite := .destinationOut }

/-- C5's failing input: an all-black canvas, red configured colour, and a
context whose composite mode an eraser stamp left at `destination-out`. -/
def fillAfterEraseState : AppState :=
  { width := 4, height := 4, surface := blackSurface, isDrawing := false,
    currentColor := "#ff0000", brushSize := 5, brushType := .round,
    isEraser := true, history := [blackSurface], historyStep := 0,
    composite := .destinationOut }

section HistoryClaims

/-- C1: pushing while the cursor is not at the last entry truncates every
entry strictly after the cursor, appends a snapshot of the current surface,
and leaves the cursor at the newly appended entry, which is the last
entry. -/
theorem saveState_truncates_after_cursor (st : AppState)
    (h0 : -1 ≤ st.historyStep)
    (h1 : st.historyStep < (st.history.length : ℤ) - 1)
    (h2 : st.history.length ≤ 50) :
    (saveState st).history
        = st.history.take (st.historyStep + 1).toNat ++ [st.surface] ∧
      (saveState st).historyStep = st.historyStep + 1 ∧
      (saveState st).historyStep = ((saveState st).history.length : ℤ) - 1 := by
  have hlt : st.historyStep + 1 < (st.history.length : ℤ) := by omega
  simp only [saveState]
  rw [if_pos hlt]
  have htake :
      (st.history.take (st.historyStep + 1).toNat).length
        = (st.historyStep + 1).toNat := by
    rw [List.length_take]
    omega
  have hlen :
      (st.history.take (st.historyStep + 1).toNat ++ [st.surface]).length
        = (st.historyStep + 1).toNat + 1 := by
    simp [htake]
  have hnocap :
      ¬ 50 < (st.history.take (st.historyStep + 1).toNat
        ++ [st.surface]).length := by
    rw [hlen]; omega
  rw [if_neg hnocap]
  refine ⟨rfl, rfl, ?_⟩
  simp only [hlen]
  omega

/-- C1 witness: a concrete three-entry history with the cursor at entry 0. -/
theorem saveState_truncates_after_cursor_witness :
    letI black : Surface := fun _ _ => some (Color.css "#000000")
    letI st : AppState :=
      { width := 4, height := 4, surface := black, isDrawing := false,
        currentColor := "#ffffff", brushSize := 5, brushType := .round,
        isEraser := false, history := [black, black, black], historyStep := 0,
        composite := .sourceOver }
    (saveState st).history
        = st.history.take (st.historyStep + 1).toNat ++ [st.surface] ∧
      (saveState st).historyStep = st.historyStep + 1 ∧
      (saveState st).historyStep = ((saveState st).history.length : ℤ) - 1 :=
  saveState_truncates_after_cursor _ (by decide) (by decide) (by decide)

/-- `undoClick` never touches the stored history, only the cursor and the
surface. -/
theorem undoClick_history (st : AppState) : (undoClick st).history = st.history := by
  unfold undoClick
  split <;> rfl

/-- C2: a push on a valid state keeps the history length at most 50 and
leaves the cursor indexing the entry just appended; when the push would
exceed the cap (a full 50-entry history with the cursor at the tail) the
oldest entry is evicted and the cursor is decremented to 49, still indexing
the appended entry; `undoClick` preserves the history (hence the bound). -/
theorem history_cap_invariant (st : AppState)
    (h0 : -1 ≤ st.historyStep)
    (h1 : st.historyStep < (st.history.length : ℤ))
    (h2 : st.history.length ≤ 50) :
    (saveState st).history.length ≤ 50 ∧
      (saveState st).history[((saveState st).historyStep).toNat]?
        = some st.surface ∧
      (st.history.length = 50 → st.historyStep = 49 →
        (saveState st).history = st.history.drop 1 ++ [st.surface] ∧
          (saveState st).historyStep = 49) ∧
      (undoClick st).history = st.history := by
  simp only [saveState]
  by_cases hc : st.historyStep + 1 < (st.history.length : ℤ)
  · rw [if_pos hc]
    have htake :
        (st.history.take (st.historyStep + 1).toNat).length
          = (st.historyStep + 1).toNat := by
      rw [List.length_take]; omega
    have hlen :
        (st.history.take (st.historyStep + 1).toNat ++ [st.surface]).length
          = (st.historyStep + 1).toNat + 1 := by simp [htake]
    have hnocap :
        ¬ 50 < (st.history.take (st.historyStep + 1).toNat
          ++ [st.surface]).length := by rw [hlen]; omega
    rw [if_neg hnocap]
    refine ⟨by rw [hlen]; omega, ?_, ?_, undoClick_history st⟩
    · show (st.history.take (st.historyStep + 1).toNat
          ++ [st.surface])[(st.historyStep + 1).toNat]? = some st.surface
      nth_rewrite 2 [← htake]
      exact List.getElem?_concat_length _ _
    · intro ha hb
      exfalso
      omega
  · rw [if_neg hc]
    have hstep : st.historyStep + 1 = (st.history.length : ℤ) := by omega
    by_cases hcap : 50 < (st.history ++ [st.surface]).length
    · rw [if_pos hcap]
      have hfull : st.history.length = 50 := by
        simp only [List.length_append, List.length_singleton] at hcap
        omega
      have hne : 1 ≤ st.history.length := by omega
      have hdrop : (st.history ++ [st.surface]).drop 1
          = st.history.drop 1 ++ [st.surface] :=
        List.drop_append_of_le_length hne
      have hidx : (st.historyStep + 1 - 1).toNat
          = (st.history.drop 1).length := by
        simp only [List.length_drop]
        omega
      refine ⟨?_, ?_, ?_, undoClick_history st⟩
      · simp [hdrop, hfull]
      · show (List.drop 1 (st.history
            ++ [st.surface]))[(st.historyStep + 1 - 1).toNat]?
            = some st.surface
        rw [hdrop, hidx]
        exact List.getElem?_concat_length _ _
      · intro _ _
        constructor
        · rw [hdrop]
        · show st.historyStep + 1 - 1 = (49 : ℤ)
          omega
    · rw [if_neg hcap]
      simp only [List.length_append, List.length_singleton] at hcap
      refine ⟨by simp; omega, ?_, by intro ha hb; exfalso; omega,
        undoClick_history st⟩
      have hidx : (st.historyStep + 1).toNat = st.history.length := by omega
      show (st.history ++ [st.surface])[(st.historyStep + 1).toNat]?
          = some st.surface
      rw [hidx]
      exact List.getElem?_concat_length _ _

/-- C2 witness: a full 50-entry history with the cursor at the tail; the
push evicts the oldest entry. -/
theorem history_cap_invariant_witness :
    letI black : Surface := fun _ _ => some (Color.css "#000000")
    letI st : AppState :=
      { width := 4, height := 4, surface := black, isDrawing := false,
        currentColor := "#ffffff", brushSize := 5, brushType := .round,
        isEraser := false, history := List.replicate 50 black,
        historyStep := 49, composite := .sourceOver }
    (saveState st).history.length ≤ 50 ∧
      (saveState st).history[((saveState st).historyStep).toNat]?
        = some st.surface ∧
      (st.history.length = 50 → st.historyStep = 49 →
        (saveState st).history = st.history.drop 1 ++ [st.surface] ∧
          (saveState st).historyStep = 49) ∧
      (undoClick st).history = st.history :=
  history_cap_invariant _ (by decide) (by simp) (by simp)

/-- Iterated `saveState`: the effect of `n` consecutive pushes with no
other operation in between. -/
def pushN : ℕ → AppState → AppState
  | 0, st => st
  | n + 1, st => pushN n (saveState st)

/-- A single push on a state whose cursor sits at the tail of a
not-yet-full history appends one entry and advances the cursor. -/
theorem saveState_at_tail (st : AppState)
    (hstep : st.historyStep = (st.history.length : ℤ) - 1)
    (hlen : st.history.length < 50) :
    (saveState st).history.length = st.history.length + 1 ∧
      (saveState st).historyStep = (st.history.length : ℤ) := by
  simp only [saveState]
  have hc : ¬ st.historyStep + 1 < (st.history.length : ℤ) := by omega
  rw [if_neg hc]
  have hcap : ¬ 50 < (st.history ++ [st.surface]).length := by
    simp only [List.length_append, List.length_singleton]
    omega
  rw [if_neg hcap]
  constructor
  · simp
  · show st.historyStep + 1 = (st.history.length : ℤ)
    omega

/-- Auxiliary induction for C9: `n` pushes from a tail-cursor state grow
the history by `n` while the cursor tracks the tail, as long as the cap is
never reached. -/
theorem pushN_at_tail (n : ℕ) (st : AppState)
    (hstep : st.historyStep = (st.history.length : ℤ) - 1)
    (hlen : st.history.length + n ≤ 50) :
    (pushN n st).history.length = st.history.length + n ∧
      (pushN n st).historyStep = (st.history.length : ℤ) + n - 1 := by
  induction n generalizing st with
  | zero => simpa using ⟨rfl, hstep⟩
  | succ k ih =>
    have hlt : st.history.length < 50 := by omega
    obtain ⟨e1, e2⟩ := saveState_at_tail st hstep hlt
    have := ih (saveState st) (by rw [e1, e2]; push_cast; ring)
      (by rw [e1]; omega)
    rw [pushN, this.1, this.2, e1]
    constructor
    · omega
    · push_cast
      ring

/-- C9: starting from an empty history with cursor −1, any `N` consecutive
pushes with `0 < N < 50` leave exactly `N` entries with the cursor at
`N − 1`. -/
theorem pushN_from_empty (n : ℕ) (st : AppState)
    (hh : st.history = []) (hs : st.historyStep = -1)
    (hpos : 0 < n) (hlt : n < 50) :
    (pushN n st).history.length = n ∧
      (pushN n st).historyStep = (n : ℤ) - 1 := by
  have := pushN_at_tail n st (by rw [hh, hs]; simp) (by simp [hh]; omega)
  rw [hh] at this
  simpa using this

/-- C9 witness: three pushes from the empty history. -/
theorem pushN_from_empty_witness :
    letI st : AppState :=
      { width := 4, height := 4,
        surface := fun _ _ => some (Color.css "#000000"), isDrawing := false,
        currentColor := "#ffffff", brushSize := 5, brushType := .round,
        isEraser := false, history := [], historyStep := -1,
        composite := .sourceOver }
    (pushN 3 st).history.length = 3 ∧ (pushN 3 st).historyStep = (3 : ℤ) - 1 :=
  pushN_from_empty 3 _ rfl rfl (by decide) (by decide)

end HistoryClaims

section ScenarioClaims

/-- C4 counterexample: in the scenario "stroke A, undo, stroke B", the
history after stroke B's push has two entries, not the three the claim
states: the push's truncation (`history.length = historyStep`) drops the
entry pushed at stroke A's pointer-down, because after the undo the cursor
sits at entry 0 and that entry is the abandoned redo branch. -/
theorem strokeB_history_not_three : strokeBState.history.length ≠ 3 := by
  decide

/-- C4 amended: after stroke A the history is the two entries
`[initial, A-start]` with the cursor at 1; stroke B's push truncates the
redo branch — which is the A-start entry itself — and appends B's
pointer-down snapshot, leaving exactly the two entries
`[initial, B-start]` with the cursor at 1. -/
theorem strokeB_history_two_entries :
    strokeAState.history.length = 2 ∧
      strokeAState.historyStep = 1 ∧
      strokeBState.history.length = 2 ∧
      strokeBState.historyStep = 1 ∧
      strokeBState.history[0]? = some initialState.surface ∧
      strokeBState.history[1]? = some undoneState.surface := by
  refine ⟨by decide, by decide, by decide, by decide, rfl, rfl⟩

end ScenarioClaims

section CompositeLeakClaims

/-- C3: evaluating the undo handler at the failing input — an eraser stamp
left the context's composite mode at `destination-out`, so the handler's
`drawImage` erases instead of painting: the cursor is decremented to 0 as
the claim says, but the canvas pixel at (0, 0) ends up transparent while
the entry the cursor points to stores an opaque black pixel there; the
surface is not restored from the entry. -/
theorem undo_composite_leak :
    (undoClick undoAfterEraseState).historyStep = 0 ∧
      (undoClick undoAfterEraseState).surface 0 0 = none ∧
      (undoAfterEraseState.history.getD 0 blankSurface) 0 0
        = some (Color.css "#000000") := by
  refine ⟨by decide, ?_, rfl⟩
  norm_num [undoClick, undoAfterEraseState, drawImage, clearRect, applyComp,
    inRect, blackSurface]

/-- C5: evaluating the fill handler at the failing input — an eraser stamp
left the context's composite mode at `destination-out`, and the handler
does not reset it, so its whole-canvas `fillRect` erases every pixel
instead of painting the configured colour: a history entry is pushed first
as the claim says, but the pixel at (0, 0) ends up transparent, not the
configured red. -/
theorem fill_composite_leak :
    (fillBtnClick fillAfterEraseState).history.length
        = fillAfterEraseState.history.length + 1 ∧
      (fillBtnClick fillAfterEraseState).surface 0 0 = none ∧
      (fillBtnClick fillAfterEraseState).surface 0 0
        ≠ some (Color.css fillAfterEraseState.currentColor) := by
  have hpix : (fillBtnClick fillAfterEraseState).surface 0 0 = none := by
    norm_num [fillBtnClick, saveState, fillAfterEraseState, fillRect,
      applyComp, inRect, blackSurface]
  refine ⟨by decide, hpix, by rw [hpix]; simp⟩

end CompositeLeakClaims

section BrushClaims

/-- C8 counterexample: the brush-size input handler stores
`parseInt(e.target.value)` without any rejection or clamping, so a
non-positive parsed value (here −3) becomes the brush size unchanged. -/
theorem brushSize_not_clamped :
    ¬ 0 < (brushSizeInput initialState (-3)).brushSize := by decide

/-- C8 amended: the slider handler stores the parsed value unchanged (no
rejection, no clamping), so a non-positive configured size reaches the
spray density computation `density = brushSize * 2` unchanged; there the
loop bound is non-positive and the stamp paints no sub-point at all. -/
theorem brushSizeInput_passthrough (st : AppState) (v : ℤ) :
    (brushSizeInput st v).brushSize = v ∧
      ∀ x y rand, v ≤ 0 → drawSpray x y v rand = [] := by
  refine ⟨rfl, ?_⟩
  intro x y rand hv
  unfold drawSpray
  have hz : (v * 2).toNat = 0 := by omega
  rw [hz]
  rfl

/-- C8 amended witness: the handler passes −3 through, and the spray stamp
at size −3 paints nothing. -/
theorem brushSizeInput_passthrough_witness :
    (brushSizeInput initialState (-3)).brushSize = -3 ∧
      ((-3 : ℤ) ≤ 0 ∧ drawSpray 0 0 (-3) randHalf = []) :=
  ⟨(brushSizeInput_passthrough initialState (-3)).1, by decide,
    (brushSizeInput_passthrough initialState (-3)).2 0 0 randHalf
      (by decide)⟩

/-- C10: the colour-picker input handler stores the chosen colour and
always switches eraser mode off, whatever the prior brush state. -/
theorem colorPicker_disables_eraser (st : AppState) (v : String) :
    (colorPickerInput st v).currentColor = v ∧
      (colorPickerInput st v).isEraser = false :=
  ⟨rfl, rfl⟩

end BrushClaims

section SprayClaims

/-- C6: for a positive brush size `S` and uniform samples in `[0, 1)`, one
spray stamp examines exactly `2 × S` candidate sub-points, every candidate
lies in the axis-aligned square of side `S` centred on the stamp point,
every painted sub-point is one of the candidates, and every painted
sub-point lies within Euclidean distance `S / 2` of the centre (stated on
squared distances to stay in ℚ). -/
theorem spray_stamp_bounds (x y : ℚ) (S : ℤ) (rand : ℕ → ℚ × ℚ)
    (hS : 0 < S)
    (hr : ∀ i, 0 ≤ (rand i).1 ∧ (rand i).1 < 1 ∧
      0 ≤ (rand i).2 ∧ (rand i).2 < 1) :
    ((sprayCandidates x y S rand).length : ℤ) = 2 * S ∧
      (∀ c ∈ sprayCandidates x y S rand,
        |c.1 - x| ≤ (S : ℚ) / 2 ∧ |c.2 - y| ≤ (S : ℚ) / 2) ∧
      (∀ p ∈ drawSpray x y S rand, p ∈ sprayCandidates x y S rand) ∧
      (∀ p ∈ drawSpray x y S rand,
        (p.1 - x) ^ 2 + (p.2 - y) ^ 2 ≤ ((S : ℚ) / 2) ^ 2) := by
  have hSQ : (0 : ℚ) < (S : ℚ) := by exact_mod_cast hS
  have habs : ∀ r : ℚ, 0 ≤ r → r < 1 → |(r - 1 / 2) * (S : ℚ)| ≤ (S : ℚ) / 2 := by
    intro r h0 h1
    have h2 : |r - 1 / 2| ≤ 1 / 2 := abs_le.mpr ⟨by linarith, by linarith⟩
    calc |(r - 1 / 2) * (S : ℚ)| = |r - 1 / 2| * |(S : ℚ)| := abs_mul _ _
      _ = |r - 1 / 2| * (S : ℚ) := by rw [abs_of_pos hSQ]
      _ ≤ (1 / 2) * (S : ℚ) := mul_le_mul_of_nonneg_right h2 hSQ.le
      _ = (S : ℚ) / 2 := by ring
  refine ⟨?_, ?_, ?_, ?_⟩
  · simp only [sprayCandidates, List.length_map, List.length_range]
    omega
  · intro c hc
    simp only [sprayCandidates, List.mem_map, List.mem_range] at hc
    obtain ⟨i, _, rfl⟩ := hc
    obtain ⟨a1, a2, a3, a4⟩ := hr i
    constructor
    · rw [show x + ((rand i).1 - 1 / 2) * (S : ℚ) - x
          = ((rand i).1 - 1 / 2) * (S : ℚ) from by ring]
      exact habs _ a1 a2
    · rw [show y + ((rand i).2 - 1 / 2) * (S : ℚ) - y
          = ((rand i).2 - 1 / 2) * (S : ℚ) from by ring]
      exact habs _ a3 a4
  · intro p hp
    simp only [drawSpray, List.mem_filterMap, List.mem_range] at hp
    obtain ⟨i, hi, hf⟩ := hp
    split at hf
    · simp only [Option.some.injEq] at hf
      simp only [sprayCandidates, List.mem_map, List.mem_range]
      exact ⟨i, hi, hf⟩
    · exact absurd hf (by simp)
  · intro p hp
    simp only [drawSpray, List.mem_filterMap, List.mem_range] at hp
    obtain ⟨i, hi, hf⟩ := hp
    split at hf
    · rename_i hguard
      obtain ⟨-, hd⟩ := hguard
      simp only [Option.some.injEq] at hf
      rw [← hf]
      calc (x + ((rand i).1 - 1 / 2) * (S : ℚ) - x) ^ 2
            + (y + ((rand i).2 - 1 / 2) * (S : ℚ) - y) ^ 2
          = (((rand i).1 - 1 / 2) * (S : ℚ)) ^ 2
            + (((rand i).2 - 1 / 2) * (S : ℚ)) ^ 2 := by ring
        _ ≤ ((S : ℚ) / 2) ^ 2 := hd
    · exact absurd hf (by simp)

/-- C6 witness: size 2 with the constant sample 1/2; every candidate is the
centre itself and all four candidates are painted. -/
theorem spray_stamp_bounds_witness :
    ((sprayCandidates 0 0 2 randHalf).length : ℤ) = 2 * 2 ∧
      (∀ c ∈ sprayCandidates 0 0 2 randHalf,
        |c.1 - 0| ≤ (2 : ℚ) / 2 ∧ |c.2 - 0| ≤ (2 : ℚ) / 2) ∧
      (∀ p ∈ drawSpray 0 0 2 randHalf, p ∈ sprayCandidates 0 0 2 randHalf) ∧
      (∀ p ∈ drawSpray 0 0 2 randHalf,
        (p.1 - 0) ^ 2 + (p.2 - 0) ^ 2 ≤ ((2 : ℚ) / 2) ^ 2) :=
  spray_stamp_bounds 0 0 2 randHalf (by decide)
    (fun _ => by norm_num [randHalf])

end SprayClaims

section EraserClaims

/-- A `destination-out` disc stamp produces the same surface whatever fill
style is set: compositing erases the covered pixels regardless of the
source colour. -/
theorem fillDisc_erase_color (c1 c2 : Color) (x y r : ℚ) (s : Surface) :
    fillDisc .destinationOut c1 x y r s = fillDisc .destinationOut c2 x y r s := by
  funext p q
  unfold fillDisc
  split <;> rfl

/-- C7: with eraser mode active, `draw` stamps under the `destination-out`
composite mode for every brush kind, and the resulting surface is
identical across runs that differ only in the configured colour or in the
wall-clock time feeding the rainbow hue. -/
theorem eraser_ignores_color (st : AppState) (c1 c2 : String)
    (t1 t2 x y : ℚ) (rand : ℕ → ℚ × ℚ) (h : st.isEraser = true) :
    (draw { st with currentColor := c1 } x y t1 rand).surface
        = (draw { st with currentColor := c2 } x y t2 rand).surface ∧
      (draw { st with currentColor := c1 } x y t1 rand).composite
        = CompositeMode.destinationOut := by
  constructor
  · unfold draw
    cases hb : st.brushType <;> simp only [h, hb, if_true] <;> rfl
  · unfold draw
    cases hb : st.brushType <;> simp [h, hb]

/-- C7 witness: a concrete eraser-mode state, two colours and two times. -/
theorem eraser_ignores_color_witness :
    letI st : AppState :=
      { width := 4, height := 4, surface := blackSurface, isDrawing := true,
        currentColor := "#ffffff", brushSize := 5, brushType := .rainbow,
        isEraser := true, history := [blackSurface], historyStep := 0,
        composite := .sourceOver }
    (draw { st with currentColor := "#ff0000" } 1 1 0 randHalf).surface
        = (draw { st with currentColor := "#00ff00" } 1 1 3600 randHalf).surface ∧
      (draw { st with currentColor := "#ff0000" } 1 1 0 randHalf).composite
        = CompositeMode.destinationOut :=
  eraser_ignores_color _ "#ff0000" "#00ff00" 0 3600 1 1 randHalf rfl

end EraserClaims
